import Mathlib

/-!
Verification of the StockSelecting screening engine (`src/core/screener.py`),
shallowly embedded in Lean 4. Prices, volumes and derived quantities are
modelled as rationals (`ℚ`); Python floats are treated as exact numbers.
Stateful code (disk cache, upstream-call counting, statistics counters) is
modelled by explicit state passing; Python exceptions are modelled by
`Except String`.
-/

namespace StockSelecting

/-- Daily record of a price series. The source dataframe has further columns
(date, open, high, low, amount); the screening engine only reads the close
(`收盘`) and volume (`成交量`) columns, so only those are modelled. -/
structure DailyRecord where
  close : ℚ
  volume : ℚ
  deriving Repr, DecidableEq

/-- A price series is a chronologically ordered list of daily records. -/
abbrev Series := List DailyRecord

/-- Result of `calculate_chip_distribution` (the Cost-Distribution Calculator). -/
structure ChipResult where
  current_price : ℚ
  avg_cost : ℚ
  main_force_cost : ℚ
  profit_ratio : ℚ
  total_volume : ℚ
  deriving Repr, DecidableEq

/-- Result of `calculate_pentagram` (the Trend Calculator), restricted to the
fields read by `analyze_single_stock`. `ma_values` and `price_std` are not
consumed by the selection rule and are omitted. -/
structure PentagramResult where
  current_price : ℚ
  volume_ratio : ℚ
  is_trending_up : Bool
  base_price : ℚ
  support_price : ℚ
  deriving Repr, DecidableEq

/-- The accepted-candidate row built by `analyze_single_stock` on acceptance. -/
structure ScreeningRecord where
  code : String
  name : String
  current_price : ℚ
  avg_cost : ℚ
  main_force_cost : ℚ
  profit_ratio : ℚ
  base_price : ℚ
  support_price : ℚ
  price_position : ℚ
  volume_ratio : ℚ
  is_trending_up : Bool
  deriving Repr, DecidableEq

/-- The `data` section of the configuration dictionary. -/
structure DataConfig where
  start_date : String
  end_date : String
  min_data_length : ℕ
  min_trading_amount : ℚ
  deriving Repr, DecidableEq

/-- The `system` section of the configuration dictionary. -/
structure SystemConfig where
  max_workers : ℕ
  chunk_size : ℕ
  memory_limit : ℕ
  cache_enabled : Bool
  cache_ttl : ℕ
  retry_times : ℕ
  retry_delay : ℚ
  deriving Repr, DecidableEq

/-- The configuration sections consumed by the screening engine. -/
structure Config where
  data : DataConfig
  system : SystemConfig
  deriving Repr, DecidableEq

/-- Sum of the volume column of a series (`df['成交量'].sum()`). -/
def volumeSum (df : Series) : ℚ := (df.map (·.volume)).sum

/-- Sum of the per-day notional column (`(df['成交量'] * df['收盘']).sum()`). -/
def notionalSum (df : Series) : ℚ := (df.map (fun r => r.volume * r.close)).sum

/-- The most recent `n` rows of a series (`df.tail(n)`). -/
def seriesTail (n : ℕ) (df : Series) : Series := df.drop (df.length - n)

/-- `calculate_chip_distribution` from `src/core/screener.py` (lines 262-317),
with the data already fetched and passed in as `df`. Returns `none` exactly
where the source returns `None`: series shorter than `min_data_length`, empty
series (`iloc[-1]` raises, caught by the surrounding handler), or zero total
volume. `df.getLast?` models `df['收盘'].iloc[-1]`. The division guard of the
source (`if recent volume sum > 0 else 0`) is kept verbatim. -/
def calculate_chip_distribution (min_data_length : ℕ) (df : Series) : Option ChipResult :=
  if df.length < min_data_length then none
  else
    match df.getLast? with
    | none => none
    | some last =>
      let current_price := last.close
      let total_volume := volumeSum df
      if total_volume = 0 then none
      else
        let avg_cost := notionalSum df / total_volume
        let profit_volume := volumeSum (df.filter (fun r => r.close ≤ current_price))
        let profit_ratio := if total_volume > 0 then profit_volume / total_volume else 0
        let recent_days := 20
        let main_force_cost :=
          if recent_days ≤ df.length then
            let recent := seriesTail recent_days df
            if volumeSum recent > 0 then notionalSum recent / volumeSum recent else 0
          else avg_cost
        some { current_price := current_price, avg_cost := avg_cost,
               main_force_cost := main_force_cost, profit_ratio := profit_ratio,
               total_volume := total_volume }

/-- The selection step of `analyze_single_stock` (`src/core/screener.py`
lines 400-422): given the two calculators' results, accept iff the current
price (taken from the pentagram result, as the source does) is strictly below
the chip average cost, strictly above the support line and strictly below the
base line; on acceptance build the screening record including
`price_position`. -/
def select_stock (code name : String) (chip : ChipResult) (pent : PentagramResult) :
    Option ScreeningRecord :=
  let current_price := pent.current_price
  if current_price < chip.avg_cost ∧ pent.support_price < current_price ∧
      current_price < pent.base_price then
    some { code := code, name := name, current_price := current_price,
           avg_cost := chip.avg_cost, main_force_cost := chip.main_force_cost,
           profit_ratio := chip.profit_ratio, base_price := pent.base_price,
           support_price := pent.support_price,
           price_position := (current_price - pent.support_price) /
             (pent.base_price - pent.support_price),
           volume_ratio := pent.volume_ratio, is_trending_up := pent.is_trending_up }
  else none

/-- The per-run statistics counters mutated by `_process_chunk`. -/
structure Statistics where
  processed_stocks : ℕ
  successful_stocks : ℕ
  failed_stocks : ℕ
  deriving Repr, DecidableEq

/-- One iteration of the loop body of `_process_chunk` (`src/core/screener.py`
lines 439-448). The whole per-symbol pipeline (`analyze_single_stock` together
with the `_clear_cache_if_needed` call preceding its own handler) is abstracted
as a function `analyze` that either throws (`Except.error`), accepts
(`some record`) or yields no signal (`none`). A thrown exception is caught
here: the symbol is counted as failed and the loop moves on. -/
def chunk_step (analyze : String × String → Except String (Option ScreeningRecord))
    (acc : List ScreeningRecord × Statistics) (s : String × String) :
    List ScreeningRecord × Statistics :=
  match analyze s with
  | .ok (some r) =>
      (acc.1 ++ [r],
       { acc.2 with successful_stocks := acc.2.successful_stocks + 1,
                    processed_stocks := acc.2.processed_stocks + 1 })
  | .ok none =>
      (acc.1, { acc.2 with processed_stocks := acc.2.processed_stocks + 1 })
  | .error _ =>
      (acc.1, { acc.2 with failed_stocks := acc.2.failed_stocks + 1 })

/-- `_process_chunk` (`src/core/screener.py` lines 428-450): sequentially run
the per-symbol pipeline over the chunk, catching every per-symbol exception.
The function is total — by construction no per-symbol error escapes to the
scheduler. -/
def process_chunk (analyze : String × String → Except String (Option ScreeningRecord))
    (chunk : List (String × String)) (stats : Statistics) :
    List ScreeningRecord × Statistics :=
  chunk.foldl (chunk_step analyze) ([], stats)

/-- Mutable state of a `StockScreener` as far as data acquisition is
concerned: the in-memory cache dictionary `self.cache` (a key-value map,
modelled as an association list), the on-disk pickle cache (one entry per
`(stock_code, cache_key)` file), and a counter of calls made to the upstream
service `ak.stock_zh_a_hist`. -/
structure ScreenerState where
  mem_cache : List ((String × String) × Series)
  disk : List ((String × String) × Series)
  upstream_calls : ℕ

/-- `StockScreener.__init__` (lines 59-62): the in-memory cache starts empty;
the on-disk cache directory persists across runs, so the disk content is a
parameter. -/
def init_state (disk0 : List ((String × String) × Series)) : ScreenerState :=
  { mem_cache := [], disk := disk0, upstream_calls := 0 }

/-- `_clear_cache_if_needed` (lines 92-98): when resident memory exceeds the
limit (abstracted as the boolean `over_limit`, since process memory is outside
the model), clear the in-memory cache dictionary. `gc.collect()` has no
observable effect in the model. -/
def clear_cache_if_needed (over_limit : Bool) (st : ScreenerState) : ScreenerState :=
  if over_limit then { st with mem_cache := [] } else st

/-- `_get_cached_data` (lines 100-109): read the pickle file for
`(stock_code, cache_key)` from the on-disk cache, `none` when absent. The
in-memory map is not consulted. -/
def get_cached_data (st : ScreenerState) (stock_code cache_key : String) : Option Series :=
  st.disk.lookup (stock_code, cache_key)

/-- `_save_to_cache` (lines 111-117): write the series to the pickle file for
`(stock_code, cache_key)`; a later write for the same key shadows an earlier
one. The in-memory map is not touched. -/
def save_to_cache (st : ScreenerState) (stock_code cache_key : String) (data : Series) :
    ScreenerState :=
  { st with disk := ((stock_code, cache_key), data) :: st.disk }

/-- The cache key of `_get_stock_data` (line 122): derived from the configured
date window, `f"{start_date}_{end_date}"`. -/
def cache_key (cfg : Config) : String :=
  cfg.data.start_date ++ "_" ++ cfg.data.end_date

/-- One attempt of the body of `_get_stock_data` (lines 120-145): consult the
on-disk cache and return the hit immediately, otherwise call the upstream
service (`upstream` applied to the index of this upstream call; a failing call
raises) and on success write through to the cache. -/
def fetch_attempt (cfg : Config) (stock_code : String)
    (upstream : ℕ → Except String Series) (st : ScreenerState) :
    Except String Series × ScreenerState :=
  match get_cached_data st stock_code (cache_key cfg) with
  | some cached_data => (.ok cached_data, st)
  | none =>
    match upstream st.upstream_calls with
    | .ok df => (.ok df, save_to_cache { st with upstream_calls := st.upstream_calls + 1 }
                   stock_code (cache_key cfg) df)
    | .error e => (.error e, { st with upstream_calls := st.upstream_calls + 1 })

/-- Recursion of the loop inside `retry_on_exception`'s wrapper (lines 28-39):
`rem` attempts remain, `attempt` is the index of the next attempt, `last` the
last exception seen. Returns the outcome, the final state, the number of
attempts actually made, and the list of back-off delays slept between
consecutive attempts (each `delay_base * (1 + rand attempt)` with
`rand attempt` the value drawn from `random.random()`, i.e. uniform `[0,1)`).
When no attempts remain the last exception is re-raised. -/
def retry_aux (f : ScreenerState → Except String Series × ScreenerState)
    (rand : ℕ → ℚ) (delay_base : ℚ) :
    ℕ → ℕ → String → ScreenerState →
    Except String Series × ScreenerState × ℕ × List ℚ
  | _, 0, last, st => (.error last, st, 0, [])
  | attempt, rem + 1, _, st =>
    match f st with
    | (.ok a, st') => (.ok a, st', 1, [])
    | (.error e, st') =>
      if rem = 0 then (.error e, st', 1, [])
      else
        let delay := delay_base * (1 + rand attempt)
        let rest := retry_aux f rand delay_base (attempt + 1) rem e st'
        (rest.1, rest.2.1, rest.2.2.1 + 1, delay :: rest.2.2.2)

/-- The decorator `retry_on_exception(retries, delay_base)` (lines 23-43)
applied to a state-transforming fallible function. -/
def retry_on_exception (retries : ℕ) (delay_base : ℚ)
    (f : ScreenerState → Except String Series × ScreenerState)
    (rand : ℕ → ℚ) (st : ScreenerState) :
    Except String Series × ScreenerState × ℕ × List ℚ :=
  retry_aux f rand delay_base 0 retries "None" st

/-- `_get_stock_data` (line 119-145): the fetch body wrapped by the decorator
`@retry_on_exception(retries=3, delay_base=1)`. The literals 3 and 1 come from
the decorator application at line 119; the configuration's
`system.retry_times` and `system.retry_delay` are not read anywhere in the
source. -/
def get_stock_data (cfg : Config) (stock_code : String)
    (upstream : ℕ → Except String Series) (rand : ℕ → ℚ) (st : ScreenerState) :
    Except String Series × ScreenerState × ℕ × List ℚ :=
  retry_on_exception 3 1 (fetch_attempt cfg stock_code upstream) rand st

/-- Operations that touch a `StockScreener`'s mutable acquisition state during
a run: a data fetch for one symbol, or a memory-guard check. -/
inductive ScreenerOp where
  | fetch (stock_code : String) (upstream : ℕ → Except String Series) (rand : ℕ → ℚ)
  | memory_guard (over_limit : Bool)

/-- Effect of one operation on the screener state. -/
def apply_op (cfg : Config) (st : ScreenerState) : ScreenerOp → ScreenerState
  | .fetch stock_code upstream rand => (get_stock_data cfg stock_code upstream rand st).2.1
  | .memory_guard over_limit => clear_cache_if_needed over_limit st

/-- A run is a sequence of such operations from a freshly initialised
screener. -/
def run_ops (cfg : Config) (disk0 : List ((String × String) × Series))
    (ops : List ScreenerOp) : ScreenerState :=
  ops.foldl (apply_op cfg) (init_state disk0)

/-- The chunking loop of `screen_stocks` (lines 473-479):
`for i in range(0, len(stock_list), chunk_size)` take the next `chunk_size`
symbols. Modelled with the list length as fuel (each iteration consumes at
least one element when `chunk_size ≥ 1`; Python raises on a zero step, and a
zero `chunk_size` exhausts the fuel harmlessly here). -/
def chunk_loop (chunk_size : ℕ) : ℕ → List (String × String) → List (List (String × String))
  | 0, _ => []
  | _, [] => []
  | fuel + 1, l => l.take chunk_size :: chunk_loop chunk_size fuel (l.drop chunk_size)

/-- The chunks `screen_stocks` builds from the filtered stock list. -/
def make_chunks (chunk_size : ℕ) (stock_list : List (String × String)) :
    List (List (String × String)) :=
  chunk_loop chunk_size stock_list.length stock_list

/-- Two-digit zero-padding of the fractional cents. -/
def pad2 (n : ℕ) : String := if n < 10 then "0" ++ toString n else toString n

/-- Render a non-negative number of cents as a decimal string with exactly two
fractional digits. -/
def render_cents_nat (m : ℕ) : String := toString (m / 100) ++ "." ++ pad2 (m % 100)

/-- Round a rational to the nearest integer, ties to even — the rounding used
by Python's fixed-point float formatting (applied here to exact rationals; the
source rounds the nearest binary double). -/
def round_half_even (q : ℚ) : ℤ :=
  let f := ⌊q⌋
  let r := q - f
  if r < 1 / 2 then f
  else if 1 / 2 < r then f + 1
  else if f % 2 = 0 then f else f + 1

/-- The column formatter `lambda x: f"{float(x):.2f}"` of `_format_results`
(lines 555-556): fixed-point rendering with two decimals. -/
def fmt2 (q : ℚ) : String :=
  let n := round_half_even (q * 100)
  if n < 0 then "-" ++ render_cents_nat n.natAbs else render_cents_nat n.toNat

/-- A row of the final result table after `_format_results`: the six numeric
columns and the two derived percentage columns are strings (formatted before
the sort, lines 548-561), `base_price` and `support_price` are not in
`numeric_cols` and stay numeric, and the trend flag is rendered as text
(lines 564-566). `dist_to_base_pct` and `dist_to_avg_cost_pct` are the columns
named `价格距离基准线` and `价格距离筹码均价` in the source. -/
structure FormattedRow where
  code : String
  name : String
  current_price : String
  avg_cost : String
  main_force_cost : String
  profit_ratio : String
  base_price : ℚ
  support_price : ℚ
  price_position : String
  volume_ratio : String
  dist_to_base_pct : String
  dist_to_avg_cost_pct : String
  is_trending_up : String
  deriving Repr, DecidableEq

/-- Row-wise part of `_format_results` (lines 546-566): derive the two
percentage columns from the numeric fields, then format the numeric and
percentage columns as strings. -/
def format_row (r : ScreeningRecord) : FormattedRow :=
  { code := r.code, name := r.name,
    current_price := fmt2 r.current_price,
    avg_cost := fmt2 r.avg_cost,
    main_force_cost := fmt2 r.main_force_cost,
    profit_ratio := fmt2 r.profit_ratio,
    base_price := r.base_price, support_price := r.support_price,
    price_position := fmt2 r.price_position,
    volume_ratio := fmt2 r.volume_ratio,
    dist_to_base_pct := fmt2 ((r.base_price - r.current_price) / r.current_price * 100) ++ "%",
    dist_to_avg_cost_pct := fmt2 ((r.avg_cost - r.current_price) / r.current_price * 100) ++ "%",
    is_trending_up := if r.is_trending_up then "上涨" else "下跌" }

/-- The composite sort key of
`df.sort_values(['price_position', 'volume_ratio'], ascending=[True, False])`
(lines 569-570). At the point of the sort both columns are the formatted
strings, so the comparison is the lexicographic string comparison: ascending
on the `price_position` string, ties broken descending on the `volume_ratio`
string. -/
def results_le (a b : FormattedRow) : Bool :=
  if a.price_position = b.price_position then decide (b.volume_ratio ≤ a.volume_ratio)
  else decide (a.price_position < b.price_position)

/-- `_format_results` (lines 532-577): `pd.DataFrame(results)` keeps the input
order, the derived and formatted columns are added row-wise, and the final
sort is a stable sort on the composite string key. An empty input yields an
empty table. -/
def format_results (results : List ScreeningRecord) : List FormattedRow :=
  if results.isEmpty then []
  else (results.map format_row).mergeSort results_le

/-- In an ordered field, a list of non-negative terms summing to zero has all
terms zero. -/
theorem list_sum_nonneg_eq_zero {l : List ℚ} (h : ∀ x ∈ l, 0 ≤ x) (hs : l.sum = 0) :
    ∀ x ∈ l, x = 0 := by
  induction l with
  | nil => intro x hx; cases hx
  | cons a t ih =>
    have hts : 0 ≤ t.sum := List.sum_nonneg (fun x hx => h x (List.mem_cons_of_mem a hx))
    have ha : 0 ≤ a := h a (List.mem_cons_self a t)
    have hsum : a + t.sum = 0 := by simpa using hs
    have ha0 : a = 0 := by linarith
    have ht0 : t.sum = 0 := by linarith
    intro x hx
    rcases List.mem_cons.mp hx with rfl | hx
    · exact ha0
    · exact ih (fun y hy => h y (List.mem_cons_of_mem a hy)) ht0 x hx

/-- Example cost result with `avg_cost = 10` (other fields inert for the
selection rule). -/
def chipEx : ChipResult :=
  { current_price := 9, avg_cost := 10, main_force_cost := 9, profit_ratio := 0,
    total_volume := 1 }

/-- Example trend result with `support_price = 8`, `base_price = 12` and the
given current price. -/
def pentEx (cp : ℚ) : PentagramResult :=
  { current_price := cp, volume_ratio := 1, is_trending_up := false,
    base_price := 12, support_price := 8 }

/-- The record emitted for the C1 boundary example: current price 9 between
support 8 and base 12, below average cost 10. -/
def recEx : ScreeningRecord :=
  { code := "600000", name := "A", current_price := 9, avg_cost := 10,
    main_force_cost := 9, profit_ratio := 0, base_price := 12, support_price := 8,
    price_position := 1 / 4, volume_ratio := 1, is_trending_up := false }

/-- C1: the Selection Rule accepts exactly when all three strict comparisons
hold, and on acceptance the emitted record carries
`price_position = (current_price - support_price) / (base_price - support_price)`. -/
theorem claim_C1_selection_rule :
    ∀ (code name : String) (chip : ChipResult) (pent : PentagramResult),
      ((select_stock code name chip pent).isSome ↔
        (pent.current_price < chip.avg_cost ∧ pent.support_price < pent.current_price ∧
          pent.current_price < pent.base_price)) ∧
      (∀ r, select_stock code name chip pent = some r →
        r.price_position = (pent.current_price - pent.support_price) /
          (pent.base_price - pent.support_price)) := by
  intro code name chip pent
  constructor
  · simp only [select_stock]
    split
    case isTrue hc => simp [hc]
    case isFalse hc => simp [hc]
  · intro r h
    simp only [select_stock] at h
    split at h
    · cases h; rfl
    · cases h

/-- C1 witness: with `avg_cost = 10`, `support_price = 8`, `base_price = 12`,
a current price of 9 is accepted with `price_position = (9-8)/(12-8) = 1/4`,
while current prices 10 and 8 are rejected. -/
theorem claim_C1_selection_rule_witness :
    (select_stock "600000" "A" chipEx (pentEx 9)).isSome ∧
    select_stock "600000" "A" chipEx (pentEx 9) = some recEx ∧
    recEx.price_position = 1 / 4 ∧
    select_stock "600000" "A" chipEx (pentEx 10) = none ∧
    select_stock "600000" "A" chipEx (pentEx 8) = none := by
  have hsel : select_stock "600000" "A" chipEx (pentEx 9) = some recEx := by
    simp only [select_stock, chipEx, pentEx, recEx]
    norm_num
  have h := claim_C1_selection_rule "600000" "A" chipEx (pentEx 9)
  refine ⟨h.1.mpr (by norm_num [chipEx, pentEx]), hsel, ?_, ?_, ?_⟩
  · rw [h.2 recEx hsel]; norm_num [pentEx]
  · simp only [select_stock, chipEx, pentEx]; norm_num
  · simp only [select_stock, chipEx, pentEx]; norm_num

/-- C8: whenever the Selection Rule accepts, the gap `base_price -
support_price` is strictly positive and the emitted `price_position` lies in
`[0, 1]`; the division is well-defined on the accept path. -/
theorem claim_C8_price_position_in_unit_interval :
    ∀ (code name : String) (chip : ChipResult) (pent : PentagramResult) (r : ScreeningRecord),
      select_stock code name chip pent = some r →
      0 < pent.base_price - pent.support_price ∧
      0 ≤ r.price_position ∧ r.price_position ≤ 1 := by
  intro code name chip pent r h
  simp only [select_stock] at h
  split at h
  case isTrue hc =>
    obtain ⟨h1, h2, h3⟩ := hc
    have hgap : 0 < pent.base_price - pent.support_price := by linarith
    cases h
    refine ⟨hgap, div_nonneg (by linarith) (le_of_lt hgap), ?_⟩
    exact (div_le_one hgap).mpr (by linarith)
  case isFalse => cases h

/-- C8 witness: at the concrete accepted input of C1, the gap is `4 > 0` and the
position `1/4` lies in `[0, 1]`. -/
theorem claim_C8_price_position_in_unit_interval_witness :
    select_stock "600000" "A" chipEx (pentEx 9) = some recEx ∧
    0 < (pentEx 9).base_price - (pentEx 9).support_price ∧
    0 ≤ recEx.price_position ∧ recEx.price_position ≤ 1 := by
  have hsel : select_stock "600000" "A" chipEx (pentEx 9) = some recEx := by
    simp only [select_stock, chipEx, pentEx, recEx]
    norm_num
  have h := claim_C8_price_position_in_unit_interval "600000" "A" chipEx (pentEx 9) recEx hsel
  exact ⟨hsel, h.1, h.2.1, h.2.2⟩

/-- C6: a series of sufficient length whose volumes sum to zero yields the
no-signal outcome (`none`) from the Cost-Distribution Calculator; the division
by `total_volume` is never reached. -/
theorem claim_C6_zero_volume_guard :
    ∀ (min_data_length : ℕ) (df : Series),
      min_data_length ≤ df.length → volumeSum df = 0 →
      calculate_chip_distribution min_data_length df = none := by
  intro m df _ hvol
  unfold calculate_chip_distribution
  split
  · rfl
  · cases hgl : df.getLast? with
    | none => rfl
    | some last => simp [hvol]

/-- C6 witness: the one-record series with volume 0 (and `min_data_length = 1`)
is rejected with no signal. -/
theorem claim_C6_zero_volume_guard_witness :
    1 ≤ ([⟨5, 0⟩] : Series).length ∧ volumeSum [⟨5, 0⟩] = 0 ∧
    calculate_chip_distribution 1 [⟨5, 0⟩] = none := by
  have hv : volumeSum ([⟨5, 0⟩] : Series) = 0 := by simp [volumeSum]
  exact ⟨by simp, hv, claim_C6_zero_volume_guard 1 [⟨5, 0⟩] (by simp) hv⟩

/-- C7: on every series the Cost-Distribution Calculator accepts (sufficient
length, nonzero total volume, physically meaningful non-negative volumes),
`main_force_cost` is the notional-weighted average close over exactly the most
recent 20 records when the series has at least 20 records, and falls back to
`avg_cost` (the notional-weighted average over the whole series) otherwise.
(When the recent-20 volume sum is zero the source substitutes 0, which agrees
with the rational convention `x / 0 = 0` used by the weighted-average
formula.) -/
theorem claim_C7_main_force_cost :
    ∀ (m : ℕ) (df : Series),
      (∀ r ∈ df, 0 ≤ r.volume) → m ≤ df.length → volumeSum df ≠ 0 →
      ∃ c, calculate_chip_distribution m df = some c ∧
        c.avg_cost = notionalSum df / volumeSum df ∧
        (20 ≤ df.length →
          c.main_force_cost = notionalSum (seriesTail 20 df) / volumeSum (seriesTail 20 df)) ∧
        (df.length < 20 → c.main_force_cost = c.avg_cost) := by
  intro m df hnn hlen hvol
  have hne : df ≠ [] := by
    intro h
    exact hvol (by simp [h, volumeSum])
  have hlast := List.getLast?_eq_getLast df hne
  unfold calculate_chip_distribution
  rw [if_neg (by omega), hlast]
  dsimp only
  rw [if_neg hvol]
  refine ⟨_, rfl, rfl, ?_, ?_⟩
  · intro h20
    show (if 20 ≤ df.length then
        if volumeSum (seriesTail 20 df) > 0 then
          notionalSum (seriesTail 20 df) / volumeSum (seriesTail 20 df) else 0
      else notionalSum df / volumeSum df) =
      notionalSum (seriesTail 20 df) / volumeSum (seriesTail 20 df)
    rw [if_pos h20]
    by_cases hr : volumeSum (seriesTail 20 df) > 0
    · rw [if_pos hr]
    · rw [if_neg hr]
      have hsubnn : ∀ x ∈ (seriesTail 20 df).map (·.volume), 0 ≤ x := by
        intro x hx
        rcases List.mem_map.mp hx with ⟨r, hrmem, rfl⟩
        exact hnn r (List.mem_of_mem_drop hrmem)
      have hges : 0 ≤ volumeSum (seriesTail 20 df) := List.sum_nonneg hsubnn
      have hv0 : volumeSum (seriesTail 20 df) = 0 := le_antisymm (not_lt.mp hr) hges
      rw [hv0, div_zero]
  · intro h20
    show (if 20 ≤ df.length then
        if volumeSum (seriesTail 20 df) > 0 then
          notionalSum (seriesTail 20 df) / volumeSum (seriesTail 20 df) else 0
      else notionalSum df / volumeSum df) = notionalSum df / volumeSum df
    rw [if_neg (by omega)]

/-- C7 witness: a one-record series with volume 1 satisfies the hypotheses
(and exercises the short-series fallback). -/
theorem claim_C7_main_force_cost_witness :
    (∀ r ∈ ([⟨5, 1⟩] : Series), 0 ≤ r.volume) ∧ 1 ≤ ([⟨5, 1⟩] : Series).length ∧
    volumeSum ([⟨5, 1⟩] : Series) ≠ 0 ∧
    ∃ c, calculate_chip_distribution 1 [⟨5, 1⟩] = some c ∧
      c.avg_cost = notionalSum [⟨5, 1⟩] / volumeSum [⟨5, 1⟩] ∧
      (20 ≤ ([⟨5, 1⟩] : Series).length →
        c.main_force_cost =
          notionalSum (seriesTail 20 [⟨5, 1⟩]) / volumeSum (seriesTail 20 [⟨5, 1⟩])) ∧
      (([⟨5, 1⟩] : Series).length < 20 → c.main_force_cost = c.avg_cost) := by
  have h1 : ∀ r ∈ ([⟨5, 1⟩] : Series), 0 ≤ r.volume := by
    intro r hr
    rcases List.mem_singleton.mp hr with rfl
    norm_num
  have h2 : 1 ≤ ([⟨5, 1⟩] : Series).length := by simp
  have h3 : volumeSum ([⟨5, 1⟩] : Series) ≠ 0 := by simp [volumeSum]
  exact ⟨h1, h2, h3, claim_C7_main_force_cost 1 [⟨5, 1⟩] h1 h2 h3⟩

/-- The chunking loop rebuilds the input list when the fuel is sufficient and
the chunk size is positive. -/
theorem chunk_loop_flatten (C : ℕ) (hC : 1 ≤ C) :
    ∀ (fuel : ℕ) (l : List (String × String)), l.length ≤ fuel →
      (chunk_loop C fuel l).flatten = l := by
  intro fuel
  induction fuel with
  | zero =>
    intro l hl
    have : l = [] := List.eq_nil_of_length_eq_zero (Nat.le_zero.mp hl)
    subst this
    rfl
  | succ fuel ih =>
    intro l hl
    cases l with
    | nil => rfl
    | cons a t =>
      show ((a :: t).take C :: chunk_loop C fuel ((a :: t).drop C)).flatten = a :: t
      rw [List.flatten_cons, ih ((a :: t).drop C) (by simp only [List.length_drop, List.length_cons] at hl ⊢; omega)]
      exact List.take_append_drop C (a :: t)

/-- C9: for every universe and chunk size at least 1, the chunks produced by
`screen_stocks` concatenate back to exactly the input list — same multiset, no
duplicates or omissions, original order within (and here even across) chunks. -/
theorem claim_C9_chunking_complete :
    ∀ (C : ℕ) (stock_list : List (String × String)), 1 ≤ C →
      (make_chunks C stock_list).flatten = stock_list := by
  intro C l hC
  exact chunk_loop_flatten C hC l.length l le_rfl

/-- C9 witness: three symbols in chunks of two. -/
theorem claim_C9_chunking_complete_witness :
    1 ≤ 2 ∧
    (make_chunks 2 [("600000", "A"), ("000001", "B"), ("600519", "C")]).flatten =
      [("600000", "A"), ("000001", "B"), ("600519", "C")] :=
  ⟨by decide, claim_C9_chunking_complete 2 _ (by decide)⟩

/-- Whether the per-symbol pipeline threw an exception for this symbol. -/
def is_error : Except String (Option ScreeningRecord) → Bool
  | .error _ => true
  | .ok _ => false

/-- The accepted record of a per-symbol outcome, if any. -/
def ok_record : Except String (Option ScreeningRecord) → Option ScreeningRecord
  | .ok (some r) => some r
  | _ => none

/-- Unrolling of the `_process_chunk` fold: the accepted records are appended
in order, each erroring symbol adds exactly one to the failed counter, and each
non-erroring symbol adds exactly one to the processed counter. -/
theorem process_chunk_fold
    (analyze : String × String → Except String (Option ScreeningRecord)) :
    ∀ (chunk : List (String × String)) (acc : List ScreeningRecord × Statistics),
      (chunk.foldl (chunk_step analyze) acc).1 =
        acc.1 ++ chunk.filterMap (fun s => ok_record (analyze s)) ∧
      (chunk.foldl (chunk_step analyze) acc).2.failed_stocks =
        acc.2.failed_stocks + chunk.countP (fun s => is_error (analyze s)) ∧
      (chunk.foldl (chunk_step analyze) acc).2.processed_stocks =
        acc.2.processed_stocks + chunk.countP (fun s => !is_error (analyze s)) := by
  intro chunk
  induction chunk with
  | nil => intro acc; simp
  | cons s t ih =>
    intro acc
    rcases ih (chunk_step analyze acc s) with ⟨h1, h2, h3⟩
    cases ha : analyze s with
    | ok o =>
      cases o with
      | some r =>
        refine ⟨?_, ?_, ?_⟩
        · rw [List.foldl_cons, h1]
          simp [chunk_step, ha, ok_record, List.filterMap_cons]
        · rw [List.foldl_cons, h2]
          simp [chunk_step, ha, is_error, List.countP_cons]
        · rw [List.foldl_cons, h3]
          simp [chunk_step, ha, is_error, List.countP_cons]
          omega
      | none =>
        refine ⟨?_, ?_, ?_⟩
        · rw [List.foldl_cons, h1]
          simp [chunk_step, ha, ok_record, List.filterMap_cons]
        · rw [List.foldl_cons, h2]
          simp [chunk_step, ha, is_error, List.countP_cons]
        · rw [List.foldl_cons, h3]
          simp [chunk_step, ha, is_error, List.countP_cons]
          omega
    | error e =>
      refine ⟨?_, ?_, ?_⟩
      · rw [List.foldl_cons, h1]
        simp [chunk_step, ha, ok_record, List.filterMap_cons]
      · rw [List.foldl_cons, h2]
        simp [chunk_step, ha, is_error, List.countP_cons]
        omega
      · rw [List.foldl_cons, h3]
        simp [chunk_step, ha, is_error, List.countP_cons]

/-- C3: chunk processing is total for every per-symbol outcome function — a
per-symbol exception is caught at the chunk boundary, counted as exactly one
`failed_stocks` increment for that symbol, and the loop continues through the
whole chunk (every non-erroring symbol is still processed and every accepted
record of the whole chunk is still collected); no per-symbol error reaches the
scheduler. -/
theorem claim_C3_per_symbol_errors_contained :
    ∀ (analyze : String × String → Except String (Option ScreeningRecord))
      (chunk : List (String × String)) (stats : Statistics),
      (process_chunk analyze chunk stats).2.failed_stocks =
        stats.failed_stocks + chunk.countP (fun s => is_error (analyze s)) ∧
      (process_chunk analyze chunk stats).2.processed_stocks =
        stats.processed_stocks + chunk.countP (fun s => !is_error (analyze s)) ∧
      (process_chunk analyze chunk stats).1 =
        chunk.filterMap (fun s => ok_record (analyze s)) := by
  intro analyze chunk stats
  rcases process_chunk_fold analyze chunk ([], stats) with ⟨h1, h2, h3⟩
  exact ⟨h2, h3, by simpa using h1⟩

/-- A concrete configuration in which the retry settings differ from the
decorator's hard-coded literals: `retry_times = 5`, `retry_delay = 2` (the
values the GUI control panel writes are also `3` and `2`). -/
def cfgEx : Config :=
  { data := { start_date := "20240101", end_date := "20241231",
              min_data_length := 30, min_trading_amount := 1000000 },
    system := { max_workers := 24, chunk_size := 512, memory_limit := 16 * 1024 ^ 3,
                cache_enabled := true, cache_ttl := 3600,
                retry_times := 5, retry_delay := 2 } }

/-- C4 amended: a fetch whose upstream call fails on every attempt (with no
cache entry for the key) makes the upstream call exactly 3 times (the
decorator literal `retries=3`), sleeps `1 * (1 + u)` seconds between
consecutive attempts (the decorator literal `delay_base=1`), and re-raises the
last failure cause — irrespective of the configured `retry_times` and
`retry_delay`. -/
theorem claim_C4_retry_hardcoded :
    ∀ (cfg : Config) (stock_code : String) (err : ℕ → String) (rand : ℕ → ℚ)
      (st : ScreenerState) (upstream : ℕ → Except String Series),
      get_cached_data st stock_code (cache_key cfg) = none →
      (∀ n, upstream n = .error (err n)) →
      (get_stock_data cfg stock_code upstream rand st).1 =
        .error (err (st.upstream_calls + 2)) ∧
      (get_stock_data cfg stock_code upstream rand st).2.1.upstream_calls =
        st.upstream_calls + 3 ∧
      (get_stock_data cfg stock_code upstream rand st).2.1.disk = st.disk ∧
      (get_stock_data cfg stock_code upstream rand st).2.2.1 = 3 ∧
      (get_stock_data cfg stock_code upstream rand st).2.2.2 =
        [1 * (1 + rand 0), 1 * (1 + rand 1)] := by
  intro cfg stock_code err rand st upstream hmiss hup
  have h1 : fetch_attempt cfg stock_code upstream st =
      (.error (err st.upstream_calls), { st with upstream_calls := st.upstream_calls + 1 }) := by
    unfold fetch_attempt
    rw [hmiss, hup]
  have hmiss1 : get_cached_data { st with upstream_calls := st.upstream_calls + 1 }
      stock_code (cache_key cfg) = none := hmiss
  have h2 : fetch_attempt cfg stock_code upstream
      { st with upstream_calls := st.upstream_calls + 1 } =
      (.error (err (st.upstream_calls + 1)),
       { st with upstream_calls := st.upstream_calls + 1 + 1 }) := by
    unfold fetch_attempt
    rw [hmiss1, hup]
  have hmiss2 : get_cached_data { st with upstream_calls := st.upstream_calls + 1 + 1 }
      stock_code (cache_key cfg) = none := hmiss
  have h3 : fetch_attempt cfg stock_code upstream
      { st with upstream_calls := st.upstream_calls + 1 + 1 } =
      (.error (err (st.upstream_calls + 1 + 1)),
       { st with upstream_calls := st.upstream_calls + 1 + 1 + 1 }) := by
    unfold fetch_attempt
    rw [hmiss2, hup]
  have hrun : get_stock_data cfg stock_code upstream rand st =
      (.error (err (st.upstream_calls + 1 + 1)),
       { st with upstream_calls := st.upstream_calls + 1 + 1 + 1 }, 3,
       [1 * (1 + rand 0), 1 * (1 + rand 1)]) := by
    simp only [get_stock_data, retry_on_exception]
    simp only [retry_aux, h1, h2, h3]
    norm_num
  rw [hrun]
  exact ⟨rfl, rfl, rfl, rfl, rfl⟩

/-- C4 witness: a concrete always-failing upstream with an empty cache is
attempted exactly 3 times and re-raises the failure. -/
theorem claim_C4_retry_hardcoded_witness :
    get_cached_data (init_state []) "600000" (cache_key cfgEx) = none ∧
    (get_stock_data cfgEx "600000" (fun _ => .error "boom") (fun _ => 0)
      (init_state [])).2.2.1 = 3 ∧
    (get_stock_data cfgEx "600000" (fun _ => .error "boom") (fun _ => 0)
      (init_state [])).1 = .error "boom" := by
  have h := claim_C4_retry_hardcoded cfgEx "600000" (fun _ => "boom") (fun _ => 0)
    (init_state []) (fun _ => .error "boom") rfl (fun _ => rfl)
  exact ⟨rfl, h.2.2.2.1, h.1⟩

/-- C4 counterexample: with the configured retry count set to 5 (and delay 2),
an always-failing fetch still makes exactly 3 upstream attempts — the
configured `retry_times`/`retry_delay` are not what the retry loop uses, so
the claim as stated (attempt count equals the configured value) is false. -/
theorem claim_C4_counterexample_config_ignored :
    cfgEx.system.retry_times = 5 ∧
    (get_stock_data cfgEx "600000" (fun _ => .error "boom") (fun _ => 0)
      (init_state [])).2.2.1 = 3 ∧
    (get_stock_data cfgEx "600000" (fun _ => .error "boom") (fun _ => 0)
      (init_state [])).2.1.upstream_calls = 3 ∧
    (3 : ℕ) ≠ cfgEx.system.retry_times := by
  exact ⟨rfl, rfl, rfl, by decide⟩

/-- After a successful fetch attempt, the on-disk cache maps the fetch key to
the returned series (either it already did — cache hit — or the write-through
just stored it). -/
theorem fetch_attempt_ok_lookup (cfg : Config) (stock_code : String)
    (upstream : ℕ → Except String Series) (st st' : ScreenerState) (df : Series) :
    fetch_attempt cfg stock_code upstream st = (.ok df, st') →
    get_cached_data st' stock_code (cache_key cfg) = some df := by
  unfold fetch_attempt
  cases hl : get_cached_data st stock_code (cache_key cfg) with
  | some d =>
    intro h
    simp only [Prod.mk.injEq, Except.ok.injEq] at h
    obtain ⟨rfl, rfl⟩ := h
    exact hl
  | none =>
    cases hup : upstream st.upstream_calls with
    | ok d =>
      intro h
      simp only [Prod.mk.injEq, Except.ok.injEq] at h
      obtain ⟨rfl, rfl⟩ := h
      simp [get_cached_data, save_to_cache, List.lookup]
    | error e =>
      intro h
      simp only [Prod.mk.injEq] at h
      exact absurd h.1 (by simp)

/-- Any property established by every successful attempt of `f` holds of the
final state and value when the retry loop returns successfully. -/
theorem retry_aux_ok (f : ScreenerState → Except String Series × ScreenerState)
    (rand : ℕ → ℚ) (delay_base : ℚ) (P : ScreenerState → Series → Prop)
    (hP : ∀ st st' df, f st = (.ok df, st') → P st' df) :
    ∀ (rem attempt : ℕ) (last : String) (st st' : ScreenerState) (df : Series)
      (n : ℕ) (ds : List ℚ),
      retry_aux f rand delay_base attempt rem last st = (.ok df, st', n, ds) →
      P st' df := by
  intro rem
  induction rem with
  | zero =>
    intro attempt last st st' df n ds h
    simp [retry_aux] at h
  | succ rem ih =>
    intro attempt last st st' df n ds h
    rcases hf : f st with ⟨res, st₁⟩
    cases res with
    | ok a =>
      simp only [retry_aux, hf, Prod.mk.injEq, Except.ok.injEq] at h
      obtain ⟨rfl, rfl, -, -⟩ := h
      exact hP st st₁ a hf
    | error e =>
      by_cases hrem : rem = 0
      · subst hrem
        simp [retry_aux, hf] at h
      · simp only [retry_aux, hf, if_neg hrem, Prod.mk.injEq] at h
        rcases hrec : retry_aux f rand delay_base (attempt + 1) rem e st₁ with
          ⟨r1, stA, n1, ds1⟩
        rw [hrec] at h
        dsimp only at h
        obtain ⟨h1, h2, -, -⟩ := h
        rw [h1, h2] at hrec
        exact ih (attempt + 1) e st₁ st' df n1 ds1 hrec

/-- C5: if a fetch for a symbol and date window succeeds from state `st`
(ending in state `st1`), then a second fetch of the same symbol and window
from `st1` returns the identical series and leaves the state completely
unchanged — in particular `upstream_calls` does not grow, i.e. the cache-hit
path returns immediately without touching the upstream service, after a
single attempt and with no back-off sleeps. -/
theorem claim_C5_fetch_idempotent :
    ∀ (cfg : Config) (stock_code : String) (upstream : ℕ → Except String Series)
      (rand rand2 : ℕ → ℚ) (st st1 : ScreenerState) (df : Series) (n : ℕ) (ds : List ℚ),
      get_stock_data cfg stock_code upstream rand st = (.ok df, st1, n, ds) →
      get_stock_data cfg stock_code upstream rand2 st1 = (.ok df, st1, 1, []) := by
  intro cfg stock_code upstream rand rand2 st st1 df n ds h
  have hlk : get_cached_data st1 stock_code (cache_key cfg) = some df :=
    retry_aux_ok (fetch_attempt cfg stock_code upstream) rand 1
      (fun s d => get_cached_data s stock_code (cache_key cfg) = some d)
      (fun s s' d hf => fetch_attempt_ok_lookup cfg stock_code upstream s s' d hf)
      3 0 "None" st st1 df n ds h
  have hfa : fetch_attempt cfg stock_code upstream st1 = (.ok df, st1) := by
    unfold fetch_attempt
    rw [hlk]
  simp only [get_stock_data, retry_on_exception]
  simp only [retry_aux, hfa]

/-- C5 witness: a concrete first fetch on an empty cache succeeds through the
upstream service, and the repeated fetch is served from the cache with the
state unchanged. -/
theorem claim_C5_fetch_idempotent_witness :
    get_stock_data cfgEx "600000" (fun _ => .ok [⟨5, 1⟩]) (fun _ => 0) (init_state []) =
      (.ok [⟨5, 1⟩],
       { mem_cache := [], disk := [(("600000", cache_key cfgEx), [⟨5, 1⟩])],
         upstream_calls := 1 }, 1, []) ∧
    get_stock_data cfgEx "600000" (fun _ => .ok [⟨5, 1⟩]) (fun _ => 0)
      { mem_cache := [], disk := [(("600000", cache_key cfgEx), [⟨5, 1⟩])],
        upstream_calls := 1 } =
      (.ok [⟨5, 1⟩],
       { mem_cache := [], disk := [(("600000", cache_key cfgEx), [⟨5, 1⟩])],
         upstream_calls := 1 }, 1, []) := by
  have h1 : get_stock_data cfgEx "600000" (fun _ => .ok [⟨5, 1⟩]) (fun _ => 0)
      (init_state []) =
      (.ok [⟨5, 1⟩],
       { mem_cache := [], disk := [(("600000", cache_key cfgEx), [⟨5, 1⟩])],
         upstream_calls := 1 }, 1, []) := rfl
  exact ⟨h1, claim_C5_fetch_idempotent cfgEx "600000" _ (fun _ => 0) (fun _ => 0)
    (init_state []) _ [⟨5, 1⟩] 1 [] h1⟩

/-- A fetch attempt never touches the in-memory cache map: the cache read
consults only the on-disk layer and the write-through writes only the on-disk
layer. -/
theorem fetch_attempt_mem_cache (cfg : Config) (stock_code : String)
    (upstream : ℕ → Except String Series) (st : ScreenerState) :
    ((fetch_attempt cfg stock_code upstream st).2).mem_cache = st.mem_cache := by
  unfold fetch_attempt
  cases get_cached_data st stock_code (cache_key cfg) with
  | some d => rfl
  | none =>
    cases upstream st.upstream_calls with
    | ok d => rfl
    | error e => rfl

/-- The retry loop preserves any state invariant preserved by each attempt of
the wrapped function; here: the in-memory cache content. -/
theorem retry_aux_mem_cache (f : ScreenerState → Except String Series × ScreenerState)
    (hf : ∀ st, ((f st).2).mem_cache = st.mem_cache) (rand : ℕ → ℚ) (delay_base : ℚ) :
    ∀ (rem attempt : ℕ) (last : String) (st : ScreenerState),
      ((retry_aux f rand delay_base attempt rem last st).2.1).mem_cache = st.mem_cache := by
  intro rem
  induction rem with
  | zero => intro attempt last st; rfl
  | succ rem ih =>
    intro attempt last st
    have hfst := hf st
    rcases hfs : f st with ⟨res, st₁⟩
    rw [hfs] at hfst
    cases res with
    | ok a => simp only [retry_aux, hfs]; exact hfst
    | error e =>
      by_cases hrem : rem = 0
      · subst hrem
        simp only [retry_aux, hfs, if_pos rfl]
        exact hfst
      · simp only [retry_aux, hfs, if_neg hrem]
        rw [ih (attempt + 1) e st₁]
        exact hfst

/-- One operation preserves the emptiness of the in-memory cache map. -/
theorem apply_op_mem_cache_nil (cfg : Config) (st : ScreenerState)
    (h : st.mem_cache = []) (op : ScreenerOp) : (apply_op cfg st op).mem_cache = [] := by
  cases op with
  | fetch stock_code upstream rand =>
    show ((get_stock_data cfg stock_code upstream rand st).2.1).mem_cache = []
    rw [show get_stock_data cfg stock_code upstream rand st =
          retry_on_exception 3 1 (fetch_attempt cfg stock_code upstream) rand st from rfl]
    unfold retry_on_exception
    rw [retry_aux_mem_cache (fetch_attempt cfg stock_code upstream)
      (fetch_attempt_mem_cache cfg stock_code upstream) rand 1 3 0 "None" st]
    exact h
  | memory_guard over_limit =>
    unfold apply_op clear_cache_if_needed
    cases over_limit with
    | true => simp
    | false => simpa using h

/-- Clearing an already-empty in-memory cache changes nothing at all. -/
theorem clear_cache_if_needed_of_nil (st : ScreenerState) (h : st.mem_cache = [])
    (over_limit : Bool) : clear_cache_if_needed over_limit st = st := by
  cases st
  unfold clear_cache_if_needed
  cases over_limit with
  | true => simp_all
  | false => simp

/-- C10: starting from a freshly initialised screener, the in-memory cache map
stays empty across every sequence of fetches and memory-guard checks (reads
consult only the on-disk layer and writes go only to the on-disk layer), and a
memory-guard clear applied at any point is the identity on the state — it
removes no cached content. -/
theorem claim_C10_mem_cache_always_empty :
    ∀ (cfg : Config) (disk0 : List ((String × String) × Series))
      (ops : List ScreenerOp) (over_limit : Bool),
      (run_ops cfg disk0 ops).mem_cache = [] ∧
      clear_cache_if_needed over_limit (run_ops cfg disk0 ops) = run_ops cfg disk0 ops := by
  intro cfg disk0 ops over_limit
  have key : ∀ (l : List ScreenerOp) (st : ScreenerState), st.mem_cache = [] →
      (l.foldl (apply_op cfg) st).mem_cache = [] := by
    intro l
    induction l with
    | nil => intro st h; exact h
    | cons op t ih =>
      intro st h
      exact ih (apply_op cfg st op) (apply_op_mem_cache_nil cfg st h op)
  have h1 : (run_ops cfg disk0 ops).mem_cache = [] := key ops (init_state disk0) rfl
  exact ⟨h1, clear_cache_if_needed_of_nil _ h1 over_limit⟩

/-- Rounding an integer (cast to `ℚ`) is the identity. -/
theorem round_half_even_intCast (n : ℤ) : round_half_even ((n : ℚ)) = n := by
  simp only [round_half_even, Int.floor_intCast, sub_self]
  norm_num

/-- Evaluate `fmt2` once the value in cents is known to be an integer. -/
theorem fmt2_eq_of_mul_hundred (q : ℚ) (n : ℤ) (h : q * 100 = (n : ℚ)) :
    fmt2 q = if n < 0 then "-" ++ render_cents_nat n.natAbs else render_cents_nat n.toNat := by
  simp only [fmt2, h, round_half_even_intCast]

/-- A stable merge sort of a two-element list compares the two elements once. -/
theorem mergeSort_pair {α : Type} (le : α → α → Bool) (a b : α) :
    [a, b].mergeSort le = if le a b then [a, b] else [b, a] := by
  rw [List.mergeSort]
  simp [List.splitInTwo, List.splitAt, List.splitAt.go, List.merge]

/-- The composite string key of the result sort is total. -/
theorem results_le_total : ∀ (a b : FormattedRow), results_le a b || results_le b a := by
  intro a b
  simp only [results_le]
  by_cases h : a.price_position = b.price_position
  · rw [if_pos h, if_pos h.symm]
    simp only [Bool.or_eq_true, decide_eq_true_eq]
    exact le_total b.volume_ratio a.volume_ratio
  · rw [if_neg h, if_neg (Ne.symm h)]
    simp only [Bool.or_eq_true, decide_eq_true_eq]
    exact lt_or_gt_of_ne h

/-- The composite string key of the result sort is transitive. -/
theorem results_le_trans :
    ∀ (a b c : FormattedRow), results_le a b → results_le b c → results_le a c := by
  intro a b c hab hbc
  simp only [results_le] at hab hbc ⊢
  by_cases h1 : a.price_position = b.price_position
  · by_cases h2 : b.price_position = c.price_position
    · rw [if_pos h1] at hab
      rw [if_pos h2] at hbc
      rw [if_pos (h1.trans h2)]
      simp only [decide_eq_true_eq] at hab hbc ⊢
      exact le_trans hbc hab
    · rw [if_neg h2] at hbc
      simp only [decide_eq_true_eq] at hbc
      have hac : a.price_position < c.price_position := by rw [h1]; exact hbc
      rw [if_neg (ne_of_lt hac)]
      simpa using hac
  · rw [if_neg h1] at hab
    simp only [decide_eq_true_eq] at hab
    by_cases h2 : b.price_position = c.price_position
    · have hac : a.price_position < c.price_position := by rw [← h2]; exact hab
      rw [if_neg (ne_of_lt hac)]
      simpa using hac
    · rw [if_neg h2] at hbc
      simp only [decide_eq_true_eq] at hbc
      have hac := lt_trans hab hbc
      rw [if_neg (ne_of_lt hac)]
      simpa using hac

/-- Cost result used for the sort counterexample: `avg_cost = 11`. -/
def chipCx : ChipResult :=
  { current_price := 10, avg_cost := 11, main_force_cost := 9, profit_ratio := 0,
    total_volume := 1 }

/-- Trend result used for the sort counterexample: current price 10 between
support 8 and base 12 (`price_position = 1/2`), parameterised by the volume
ratio. -/
def pentCx (vr : ℚ) : PentagramResult :=
  { current_price := 10, volume_ratio := vr, is_trending_up := false,
    base_price := 12, support_price := 8 }

/-- Accepted record with `price_position = 1/2` and `volume_ratio = 10.5`. -/
def rCxA : ScreeningRecord :=
  { code := "000001", name := "A", current_price := 10, avg_cost := 11,
    main_force_cost := 9, profit_ratio := 0, base_price := 12, support_price := 8,
    price_position := 1 / 2, volume_ratio := 21 / 2, is_trending_up := false }

/-- Accepted record with `price_position = 1/2` and `volume_ratio = 9`. -/
def rCxB : ScreeningRecord :=
  { code := "000002", name := "B", current_price := 10, avg_cost := 11,
    main_force_cost := 9, profit_ratio := 0, base_price := 12, support_price := 8,
    price_position := 1 / 2, volume_ratio := 9, is_trending_up := false }

/-- C2 counterexample: two accepted records (both emitted by the Selection
Rule) have equal numeric `price_position` and volume ratios 10.5 and 9, yet
the final table puts the record with the LOWER numeric `volume_ratio` first:
the sort runs after the columns are formatted to two-decimal strings, and the
string "10.50" compares below "9.00". -/
theorem claim_C2_counterexample_string_sort :
    select_stock "000001" "A" chipCx (pentCx (21 / 2)) = some rCxA ∧
    select_stock "000002" "B" chipCx (pentCx 9) = some rCxB ∧
    rCxA.price_position = rCxB.price_position ∧
    rCxB.volume_ratio < rCxA.volume_ratio ∧
    (format_results [rCxA, rCxB]).map (fun row => row.code) = ["000002", "000001"] := by
  have hA : fmt2 (21 / 2) = "10.50" := by
    rw [fmt2_eq_of_mul_hundred (21 / 2) 1050 (by norm_num)]
    rfl
  have hB : fmt2 (9 : ℚ) = "9.00" := by
    rw [fmt2_eq_of_mul_hundred 9 900 (by norm_num)]
    rfl
  have hle : results_le (format_row rCxA) (format_row rCxB) = false := by
    simp only [results_le, format_row, rCxA, rCxB]
    rw [if_pos trivial]
    simp only [decide_eq_false_iff_not, not_le]
    rw [hA, hB, String.lt_iff_toList_lt]
    decide
  refine ⟨?_, ?_, rfl, by norm_num [rCxA, rCxB], ?_⟩
  · simp only [select_stock, chipCx, pentCx, rCxA]
    norm_num
  · simp only [select_stock, chipCx, pentCx, rCxB]
    norm_num
  · show (([rCxA, rCxB].map format_row).mergeSort results_le).map (fun row => row.code) = _
    rw [List.map_cons, List.map_cons, List.map_nil, mergeSort_pair, hle]
    simp [format_row, rCxA, rCxB]

/-- C2 amended: for every non-empty list of accepted records, the final table
is a permutation of the formatted rows, sorted ascending by the two-decimal
formatted `price_position` STRING with ties in that string broken by the
descending formatted `volume_ratio` STRING (the sort compares the formatted
strings, not the numeric values), and the two derived percentage columns are
computed from the record's numeric fields as
`(base_price - current_price)/current_price * 100` and
`(avg_cost - current_price)/current_price * 100` before formatting. -/
theorem claim_C2_sorted_by_formatted_strings :
    ∀ rs : List ScreeningRecord, rs ≠ [] →
      (format_results rs).Perm (rs.map format_row) ∧
      (format_results rs).Pairwise (fun a b => results_le a b = true) ∧
      (∀ r ∈ rs,
        (format_row r).dist_to_base_pct =
          fmt2 ((r.base_price - r.current_price) / r.current_price * 100) ++ "%" ∧
        (format_row r).dist_to_avg_cost_pct =
          fmt2 ((r.avg_cost - r.current_price) / r.current_price * 100) ++ "%") := by
  intro rs hne
  have hfr : format_results rs = (rs.map format_row).mergeSort results_le := by
    cases rs with
    | nil => exact absurd rfl hne
    | cons a t => rfl
  refine ⟨?_, ?_, ?_⟩
  · rw [hfr]
    exact List.mergeSort_perm (rs.map format_row) results_le
  · rw [hfr]
    exact List.sorted_mergeSort results_le_trans results_le_total (rs.map format_row)
  · intro r _
    exact ⟨rfl, rfl⟩

/-- C2 amended witness: the two-record table of the counterexample satisfies
the amended ordering property. -/
theorem claim_C2_sorted_by_formatted_strings_witness :
    ([rCxA, rCxB] : List ScreeningRecord) ≠ [] ∧
    ((format_results [rCxA, rCxB]).Perm ([rCxA, rCxB].map format_row) ∧
      (format_results [rCxA, rCxB]).Pairwise (fun a b => results_le a b = true) ∧
      (∀ r ∈ ([rCxA, rCxB] : List ScreeningRecord),
        (format_row r).dist_to_base_pct =
          fmt2 ((r.base_price - r.current_price) / r.current_price * 100) ++ "%" ∧
        (format_row r).dist_to_avg_cost_pct =
          fmt2 ((r.avg_cost - r.current_price) / r.current_price * 100) ++ "%")) :=
  ⟨by simp, claim_C2_sorted_by_formatted_strings [rCxA, rCxB] (by simp)⟩

end StockSelecting
